import Mathlib

/-!
A shallow embedding of the two notebooks of the repository
`Recommendation-Algorithms`: the Santander XGBoost product-recommendation
pipeline (`XGBoost-Santander.ipynb`) and the MovieLens neural
collaborative-filtering notebook.  Dataframes are lists of rows, cells
that may hold NaN are `Option ℚ`, Python dicts built from `enumerate` are
index functions, and the NumPy `argsort` slices are modelled over
`ℚ`-valued score lists.
-/

/-- A dataframe row of the Santander notebook: the customer key
`ncodpers` and the remaining cells in column order; a cell is `none`
where the frame holds NaN. -/
structure Row where
  ncodpers : Nat
  vals : List (Option ℚ)
deriving DecidableEq

/-- The merge `pd.merge(left, right, how='left', on='ncodpers')`: every left row is
paired with each matching right row; a left row without a match keeps its
cells and receives `w` NaN cells for the `w` non-key right columns. -/
def mergeLeft (left right : List Row) (w : Nat) : List Row :=
  left.flatMap (fun r =>
    let ms := right.filter (fun p => decide (p.ncodpers = r.ncodpers))
    if ms.isEmpty then [⟨r.ncodpers, r.vals ++ List.replicate w none⟩]
    else ms.map (fun p => ⟨r.ncodpers, r.vals ++ p.vals⟩))

/-- The fill `frame.fillna(0)`: every NaN cell becomes `0`. -/
def fillna0 (t : List Row) : List Row :=
  t.map (fun r => ⟨r.ncodpers, r.vals.map (fun c => some (c.getD 0))⟩)

/-- Resolve the cells of one row after `fillna(0)`. -/
def fillCells (vs : List (Option ℚ)) : List ℚ :=
  vs.map (fun c => c.getD 0)

/-- The list `products`: the 24 product-ownership columns, in the notebook's
column order. -/
def products : List String :=
  ["ind_ahor_fin_ult1", "ind_aval_fin_ult1", "ind_cco_fin_ult1",
   "ind_cder_fin_ult1", "ind_cno_fin_ult1", "ind_ctju_fin_ult1",
   "ind_ctma_fin_ult1", "ind_ctop_fin_ult1", "ind_ctpp_fin_ult1",
   "ind_deco_fin_ult1", "ind_deme_fin_ult1", "ind_dela_fin_ult1",
   "ind_ecue_fin_ult1", "ind_fond_fin_ult1", "ind_hip_fin_ult1",
   "ind_plan_fin_ult1", "ind_pres_fin_ult1", "ind_reca_fin_ult1",
   "ind_tjcr_fin_ult1", "ind_valo_fin_ult1", "ind_viv_fin_ult1",
   "ind_nomina_ult1", "ind_nom_pens_ult1", "ind_recibo_ult1"]

/-- The list `rec_products`: the 12 products the notebook recommends from. -/
def rec_products : List String :=
  ["ind_recibo_ult1", "ind_cco_fin_ult1", "ind_nom_pens_ult1",
   "ind_nomina_ult1", "ind_tjcr_fin_ult1", "ind_ecue_fin_ult1",
   "ind_cno_fin_ult1", "ind_ctma_fin_ult1", "ind_reca_fin_ult1",
   "ind_ctop_fin_ult1", "ind_ctpp_fin_ult1", "ind_valo_fin_ult1"]

/-- Column position of each recommended product inside `products`; in the
merged frame of `get_new_products` the current-month flag of
`rec_products[k]` sits at cell `recPositions[k]` and the prior-month flag
at `24 + recPositions[k]`. -/
def recPositions : List Nat :=
  rec_products.map (fun p => products.indexOf p)

/-- The function `get_new_products(data, pdata)`: left-merge the current and the prior
month on `ncodpers`, `fillna(0)`, then for each product of `rec_products`
the label is the current flag minus the prior flag with `-1` replaced by
`0`; the key column is dropped.  (`data` is passed the key plus the 24
product flags; the unused `intsec = np.intersect1d(...)` of the source
does not influence any cell and is not modelled.) -/
def get_new_products (data pdata : List Row) : List (List ℚ) :=
  (mergeLeft data pdata 24).map (fun r =>
    let w := fillCells r.vals
    recPositions.map (fun k =>
      let d := w.getD k 0 - w.getD (24 + k) 0
      if d = -1 then 0 else d))

/-- The function `get_temp_features(merged, months)`: one left join per month on
`ncodpers` (each month table carries the key plus the 24 product
columns), with `fillna(0)` after every join; the `suffixes=[i, i+1]`
renaming of the source only affects column labels, not cells. -/
def get_temp_features (merged : List Row) (months : List (List Row)) : List Row :=
  months.foldl (fun acc m => fillna0 (mergeLeft acc m 24)) merged

/-- One pass over the values, keeping each value the first time it is
seen. -/
def uniqueFrom {α : Type} [DecidableEq α] : List α → List α → List α
  | acc, [] => acc
  | acc, x :: xs => uniqueFrom (if x ∈ acc then acc else acc ++ [x]) xs

/-- Pandas `Series.unique()`: the distinct values in first-occurrence order, as
used for `data.segmento.unique()` and for the MovieLens id lists. -/
def uniqueList {α : Type} [DecidableEq α] (l : List α) : List α :=
  uniqueFrom [] l

/-- Pandas `Series.median()`: sort ascending and take the middle element, or the
mean of the two middle elements for an even count; `none` (NaN) on an
empty series. -/
def median (l : List ℚ) : Option ℚ :=
  let s := l.insertionSort (fun a b => a ≤ b)
  if s.length = 0 then none
  else if s.length % 2 = 1 then s.get? (s.length / 2)
  else match s.get? (s.length / 2 - 1), s.get? (s.length / 2) with
    | some a, some b => some ((a + b) / 2)
    | _, _ => none

/-- The two columns that the per-segment `renta` imputation loop of
`get_features` reads and writes. -/
structure SegRow where
  segmento : String
  renta : Option ℚ
deriving DecidableEq

/-- The series `data[data.segmento==seg]['renta'].dropna()`. -/
def observedRenta (rows : List SegRow) (seg : String) : List ℚ :=
  (rows.filter (fun r => decide (r.segmento = seg))).filterMap (fun r => r.renta)

/-- One iteration of the imputation loop:
`med = data[data.segmento==seg]['renta'].dropna().median()` followed by
`data.loc[(data.renta.isnull()) & (data.segmento==seg), 'renta'] = med`. -/
def processSeg (rows : List SegRow) (seg : String) : List SegRow :=
  let med := median (observedRenta rows seg)
  rows.map (fun r =>
    if r.renta = none ∧ r.segmento = seg then ⟨r.segmento, med⟩ else r)

/-- The whole loop `for seg in data.segmento.unique(): ...` of
`get_features`. -/
def imputeRenta (rows : List SegRow) : List SegRow :=
  (uniqueList (rows.map SegRow.segmento)).foldl processSeg rows

/-- Python `str.strip()`: drop leading and trailing whitespace. -/
def pyStrip (s : String) : String :=
  String.mk (((s.data.dropWhile Char.isWhitespace).reverse.dropWhile
    Char.isWhitespace).reverse)

/-- Python `s[:n]` on a string. -/
def strTake (s : String) (n : Nat) : String :=
  String.mk (s.data.take n)

/-- Accumulate a decimal digit run; any non-digit character fails. -/
def natOfDigits : List Char → Nat → Option Nat
  | [], acc => some acc
  | c :: cs, acc =>
    if c.isDigit then natOfDigits cs (acc * 10 + (c.toNat - 48)) else none

/-- An unsigned decimal digit run, `none` when empty or non-numeric. -/
def pyToNat (cs : List Char) : Option Nat :=
  if cs.isEmpty then none else natOfDigits cs 0

/-- Python `int(s)` on an already stripped string: an optionally signed
run of decimal digits; anything else raises (here: `none`). -/
def pyToInt (s : String) : Option Int :=
  match s.data with
  | '-' :: cs => (pyToNat cs).map (fun n => -(n : Int))
  | '+' :: cs => (pyToNat cs).map (fun n => (n : Int))
  | cs => (pyToNat cs).map (fun n => (n : Int))

/-- The notebook's object-dtype parsing of `antiguedad` and `age`:
`str.strip()` then `lambda x: None if x=='NA' else int(x)`; Python `int`
raises on a string that is not an optionally signed integer literal, and
the error value records the offending text. -/
def parseIntNA (s : String) : Except String (Option Int) :=
  let t := pyStrip s
  if t = "NA" then Except.ok none
  else match pyToInt t with
    | some n => Except.ok (some n)
    | none => Except.error t

/-- The cell survives the notebook's integer parsing: its stripped text
is the `'NA'` marker or an optionally signed integer literal. -/
def wfIntCell (s : String) : Prop :=
  pyStrip s = "NA" ∨ (pyToInt (pyStrip s)).isSome

instance (s : String) : Decidable (wfIntCell s) :=
  inferInstanceAs (Decidable (_ ∨ _))

/-- An unsigned decimal literal `digits` or `digits.digits`, as ℚ. -/
def parseDecimalChars (cs : List Char) : Option ℚ :=
  match cs.dropWhile (fun c => decide (c ≠ '.')) with
  | [] => (pyToNat cs).map (fun n => (n : ℚ))
  | _ :: b =>
    if b.contains '.' then none
    else
      match pyToNat (cs.takeWhile (fun c => decide (c ≠ '.'))), pyToNat b with
      | some n, some f => some ((n : ℚ) + (f : ℚ) / ((10 : ℚ) ^ b.length))
      | _, _ => none

/-- The coercion `pd.to_numeric(cell, errors='coerce')`: parse an optionally signed
decimal literal; `none` (NaN) when parsing fails. -/
def toNumericCoerce (s : String) : Option ℚ :=
  match (pyStrip s).data with
  | '-' :: cs => (parseDecimalChars cs).map (fun q => -q)
  | cs => parseDecimalChars cs

/-- Elementwise `Series.map` with a Python function that may raise: the
first exception aborts the whole transformation. -/
def mapExcept {α β : Type} (f : α → Except String β) : List α → Except String (List β)
  | [] => Except.ok []
  | x :: xs => do
    let y ← f x
    let ys ← mapExcept f xs
    Except.ok (y :: ys)

/-- The `get_features` input columns the claims refer to, under the
object (string) dtype for which the notebook's parsing branches run;
`cod_prov` is numeric with NaN as `none`, and `segmento` may be NaN. -/
structure RawRow where
  antiguedad : String
  age : String
  renta : String
  cod_prov : Option ℚ
  segmento : Option String
deriving DecidableEq

/-- The corresponding columns after `get_features`. -/
structure FeatRow where
  antiguedad : Option ℚ
  age : Option ℚ
  cod_prov : ℚ
  segmento : String
  renta : Option ℚ
deriving DecidableEq

/-- The parsed `antiguedad` column. -/
def antigCol (rows : List RawRow) : Except String (List (Option Int)) :=
  mapExcept (fun r => parseIntNA r.antiguedad) rows

/-- The parsed `age` column. -/
def ageCol (rows : List RawRow) : Except String (List (Option Int)) :=
  mapExcept (fun r => parseIntNA r.age) rows

/-- The assignment `data.antiguedad[data.antiguedad<0] = data.antiguedad.max()`: the
column maximum (NaN skipped) replaces every negative entry. -/
def antigFix (c : List (Option Int)) : List (Option Int) :=
  let mx := (c.filterMap (fun v => v)).max?
  c.map (fun v =>
    match v with
    | some n => if n < 0 then mx else some n
    | none => none)

/-- The median (NaN skipped) of an integer-parsed column. -/
def colMedian (c : List (Option Int)) : Option ℚ :=
  median ((c.filterMap (fun v => v)).map (fun n => (n : ℚ)))

/-- The fill `col.fillna(col.median())`. -/
def fillnaMedian (c : List (Option Int)) : List (Option ℚ) :=
  let med := colMedian c
  c.map (fun v =>
    match v with
    | some n => some ((n : ℚ))
    | none => med)

/-- The fill `segmento.fillna('02 - PARTICULARES')` followed by
`segmento.map(lambda x: x[:2])`. -/
def segCol (rows : List RawRow) : List String :=
  rows.map (fun r => strTake (r.segmento.getD "02 - PARTICULARES") 2)

/-- The assignment `data['renta'] = pd.to_numeric(data['renta'], errors='coerce')`. -/
def rentaCol (rows : List RawRow) : List (Option ℚ) :=
  rows.map (fun r => toNumericCoerce r.renta)

/-- The `(segmento, renta)` columns entering the imputation loop. -/
def segRowsOf (rows : List RawRow) : List SegRow :=
  ((segCol rows).zip (rentaCol rows)).map (fun p => ⟨p.1, p.2⟩)

/-- The pure tail of `get_features` once `antiguedad` and `age` have been
parsed: negative-`antiguedad` replacement, both median fills, the
`cod_prov` sentinel 99, the `segmento` fill and truncation, and the
per-segment `renta` imputation. -/
def buildFeatures (rows : List RawRow) (antigP ageP : List (Option Int)) : List FeatRow :=
  let antig := fillnaMedian (antigFix antigP)
  let age := fillnaMedian ageP
  let seg := segCol rows
  let renta := imputeRenta (segRowsOf rows)
  (List.range rows.length).map (fun i =>
    { antiguedad := antig.getD i none
      age := age.getD i none
      cod_prov := ((rows.getD i ⟨"", "", "", none, none⟩).cod_prov).getD 99
      segmento := seg.getD i ""
      renta := (renta.getD i ⟨"", none⟩).renta })

/-- The function `get_features` restricted to the columns the claims mention: parsing
`antiguedad`/`age` raises on malformed cells, otherwise the column
transformations of `buildFeatures` run. -/
def get_features (rows : List RawRow) : Except String (List FeatRow) := do
  let antigP ← antigCol rows
  let ageP ← ageCol rows
  Except.ok (buildFeatures rows antigP ageP)

/-- The pointwise comparison underlying `np.argsort` on one row of
predicted probabilities: position `i` precedes position `j` when its
score is not larger. -/
def scoreLe (xs : List ℚ) (i j : Nat) : Prop :=
  xs.getD i 0 ≤ xs.getD j 0

instance (xs : List ℚ) : DecidableRel (scoreLe xs) :=
  fun i j => inferInstanceAs (Decidable (xs.getD i 0 ≤ xs.getD j 0))

instance (xs : List ℚ) : IsTotal Nat (scoreLe xs) :=
  ⟨fun i j => le_total (xs.getD i 0) (xs.getD j 0)⟩

instance (xs : List ℚ) : IsTrans Nat (scoreLe xs) :=
  ⟨fun i j k h h2 => le_trans h h2⟩

/-- NumPy `np.argsort(xs)`: the positions `0..n-1` sorted by ascending score. -/
def argsort (xs : List ℚ) : List Nat :=
  (List.range xs.length).insertionSort (scoreLe xs)

/-- The notebook's top-K slices — `[:, :-8:-1]` (K = 7, validation),
`[:, :-6:-1]` (K = 5, test) and `argsort()[-10:][::-1]` (K = 10,
movies): the last `k` positions of the ascending argsort, highest score
first. -/
def topK (k : Nat) (xs : List ℚ) : List Nat :=
  ((argsort xs).reverse).take k

/-- The list `test_preds`: for each probability row the five likeliest product
codes, `rec_products[j]` for `j` in the top-5 slice. -/
def test_preds (probs : List (List ℚ)) : List (List String) :=
  probs.map (fun row => (topK 5 row).map (fun j => rec_products.getD j ""))

/-- The output frame `out`: column `id` holds the test-set keys and the
columns `p0`..`p4` hold the five codes of `test_preds`, modelled
row-wise. -/
def outFrame (ids : List Nat) (probs : List (List ℚ)) : List (Nat × List String) :=
  ids.zip (test_preds probs)

/-- The target normalization of the MovieLens notebook:
`(x - min_rating) / (max_rating - min_rating)`. -/
def normalizeRating (r mn mx : ℚ) : ℚ :=
  (r - mn) / (mx - mn)

/-- The value `min_rating = min(df["rating"])`. -/
def min_rating (l : List ℚ) : Option ℚ := l.min?

/-- The value `max_rating = max(df["rating"])`. -/
def max_rating (l : List ℚ) : Option ℚ := l.max?

/-- The dict `{x: i for i, x in enumerate(ids)}` built over the distinct
ids (`ids = df["userId"].unique().tolist()`, whose entries are pairwise
distinct): it sends a distinct id to its position in that list. -/
def encodeId (l : List Nat) (x : Nat) : Nat :=
  (uniqueList l).indexOf x

/-- The dict `{i: x for i, x in enumerate(ids)}` with `.get`: it sends a
dense index back to the raw id stored there. -/
def decodeId (l : List Nat) (i : Nat) : Option Nat :=
  (uniqueList l).get? i

/-- Every cell of the row is a 0/1 ownership flag. -/
def flags01 (r : Row) : Prop :=
  ∀ c ∈ r.vals, c = some 0 ∨ c = some 1

/-- No cell of the frame is NaN. -/
def noMissing (t : List Row) : Prop :=
  ∀ r ∈ t, ∀ c ∈ r.vals, c ≠ none

instance (r : Row) : Decidable (flags01 r) :=
  inferInstanceAs (Decidable (∀ c ∈ r.vals, c = some 0 ∨ c = some 1))

instance (t : List Row) : Decidable (noMissing t) :=
  inferInstanceAs (Decidable (∀ r ∈ t, ∀ c ∈ r.vals, c ≠ none))

/-- The left merge seen from one left row when the right keys are unique:
the row is paired with its unique match, or with a NaN block when no
right row carries its key. -/
def singleMerge (right : List Row) (w : Nat) (r : Row) : Row :=
  match right.filter (fun p => decide (p.ncodpers = r.ncodpers)) with
  | [] => ⟨r.ncodpers, r.vals ++ List.replicate w none⟩
  | p :: _ => ⟨r.ncodpers, r.vals ++ p.vals⟩

lemma foldl_min_le (xs : List ℚ) : ∀ x a, a ∈ x :: xs → xs.foldl min x ≤ a := by
  induction xs with
  | nil =>
    intro x a ha
    rcases List.mem_singleton.mp ha with rfl
    exact le_refl a
  | cons y ys ih =>
    intro x a ha
    rcases List.mem_cons.mp ha with rfl | ha2
    · exact le_trans (ih (min a y) (min a y) (List.mem_cons_self _ _)) (min_le_left _ _)
    · rcases List.mem_cons.mp ha2 with rfl | ha3
      · exact le_trans (ih (min x a) (min x a) (List.mem_cons_self _ _)) (min_le_right _ _)
      · exact ih (min x y) a (List.mem_cons_of_mem _ ha3)

lemma le_foldl_max (xs : List ℚ) : ∀ x a, a ∈ x :: xs → a ≤ xs.foldl max x := by
  induction xs with
  | nil =>
    intro x a ha
    rcases List.mem_singleton.mp ha with rfl
    exact le_refl a
  | cons y ys ih =>
    intro x a ha
    rcases List.mem_cons.mp ha with rfl | ha2
    · exact le_trans (le_max_left _ _) (ih (max a y) (max a y) (List.mem_cons_self _ _))
    · rcases List.mem_cons.mp ha2 with rfl | ha3
      · exact le_trans (le_max_right _ _) (ih (max x a) (max x a) (List.mem_cons_self _ _))
      · exact ih (max x y) a (List.mem_cons_of_mem _ ha3)

lemma min_rating_le {l : List ℚ} {mn : ℚ} (h : min_rating l = some mn) :
    ∀ a ∈ l, mn ≤ a := by
  cases l with
  | nil => simp [min_rating, List.min?] at h
  | cons x xs =>
    intro a ha
    have hx : mn = xs.foldl min x := by
      simpa [min_rating, List.min?] using h.symm
    rw [hx]
    exact foldl_min_le xs x a ha

lemma le_max_rating {l : List ℚ} {mx : ℚ} (h : max_rating l = some mx) :
    ∀ a ∈ l, a ≤ mx := by
  cases l with
  | nil => simp [max_rating, List.max?] at h
  | cons x xs =>
    intro a ha
    have hx : mx = xs.foldl max x := by
      simpa [max_rating, List.max?] using h.symm
    rw [hx]
    exact le_foldl_max xs x a ha

/-- C7: for every rating `r` of the dataset between the extremes, with
`min_rating < max_rating`, the normalized target lies in `[0, 1]`, the
minimum maps to exactly `0` and the maximum to exactly `1`. -/
theorem C7_rating_normalization_range (ratings : List ℚ) (r mn mx : ℚ)
    (hr : r ∈ ratings) (hmn : min_rating ratings = some mn)
    (hmx : max_rating ratings = some mx) (hlt : mn < mx) :
    0 ≤ normalizeRating r mn mx ∧ normalizeRating r mn mx ≤ 1 ∧
    normalizeRating mn mn mx = 0 ∧ normalizeRating mx mn mx = 1 := by
  have hpos : 0 < mx - mn := sub_pos.mpr hlt
  refine ⟨div_nonneg (sub_nonneg.mpr (min_rating_le hmn r hr)) hpos.le, ?_, ?_, ?_⟩
  · exact (div_le_one hpos).mpr (sub_le_sub_right (le_max_rating hmx r hr) mn)
  · simp [normalizeRating]
  · exact div_self (ne_of_gt hpos)

theorem C7_witness :
    (2 : ℚ) ∈ [(1 : ℚ), 2, 5] ∧ min_rating [(1 : ℚ), 2, 5] = some 1 ∧
    max_rating [(1 : ℚ), 2, 5] = some 5 ∧ (1 : ℚ) < 5 ∧
    (0 ≤ normalizeRating 2 1 5 ∧ normalizeRating 2 1 5 ≤ 1 ∧
      normalizeRating 1 1 5 = 0 ∧ normalizeRating 5 1 5 = 1) :=
  ⟨by decide, by decide, by decide, by norm_num,
    C7_rating_normalization_range [1, 2, 5] 2 1 5 (by decide) (by decide)
      (by decide) (by norm_num)⟩

/-- C10: the normalization denominator `max_rating - min_rating` is
nonzero — so the division-by-zero case is unreachable — as soon as the
dataset holds two distinct rating values. -/
theorem C10_nonzero_denominator (l : List ℚ) (mn mx : ℚ)
    (hmn : min_rating l = some mn) (hmx : max_rating l = some mx)
    (a b : ℚ) (ha : a ∈ l) (hb : b ∈ l) (hab : a ≠ b) :
    mx - mn ≠ 0 := by
  rcases lt_or_gt_of_ne hab with h | h
  · have h1 : mn ≤ a := min_rating_le hmn a ha
    have h2 : b ≤ mx := le_max_rating hmx b hb
    exact sub_ne_zero.mpr (ne_of_gt (lt_of_le_of_lt h1 (lt_of_lt_of_le h h2)))
  · have h1 : mn ≤ b := min_rating_le hmn b hb
    have h2 : a ≤ mx := le_max_rating hmx a ha
    exact sub_ne_zero.mpr (ne_of_gt (lt_of_le_of_lt h1 (lt_of_lt_of_le h h2)))

theorem C10_witness :
    min_rating [(3 : ℚ), 4] = some 3 ∧ max_rating [(3 : ℚ), 4] = some 4 ∧
    (3 : ℚ) ∈ [(3 : ℚ), 4] ∧ (4 : ℚ) ∈ [(3 : ℚ), 4] ∧ (3 : ℚ) ≠ 4 ∧
    (4 : ℚ) - 3 ≠ 0 :=
  ⟨by decide, by decide, by decide, by decide, by norm_num,
    C10_nonzero_denominator [3, 4] 3 4 (by decide) (by decide) 3 4
      (by decide) (by decide) (by norm_num)⟩

lemma mergeLeft_cell_cases (data pdata : List Row) (w : Nat)
    (hd : ∀ r ∈ data, flags01 r) (hp : ∀ r ∈ pdata, flags01 r) :
    ∀ m ∈ mergeLeft data pdata w, ∀ c ∈ m.vals,
      c = some 0 ∨ c = some 1 ∨ c = none := by
  intro m hm c hc
  simp only [mergeLeft, List.mem_flatMap] at hm
  obtain ⟨r, hr, hmr⟩ := hm
  split at hmr
  · rcases List.mem_singleton.mp hmr with rfl
    rcases List.mem_append.mp hc with hleft | hright
    · rcases hd r hr c hleft with h0 | h1
      · exact Or.inl h0
      · exact Or.inr (Or.inl h1)
    · exact Or.inr (Or.inr (List.eq_of_mem_replicate hright))
  · rw [List.mem_map] at hmr
    obtain ⟨p, hpmem, rfl⟩ := hmr
    have hppd : p ∈ pdata := (List.mem_filter.mp hpmem).1
    rcases List.mem_append.mp hc with hleft | hright
    · rcases hd r hr c hleft with h0 | h1
      · exact Or.inl h0
      · exact Or.inr (Or.inl h1)
    · rcases hp p hppd c hright with h0 | h1
      · exact Or.inl h0
      · exact Or.inr (Or.inl h1)

lemma fillCells_getD_01 (vs : List (Option ℚ))
    (h : ∀ c ∈ vs, c = some 0 ∨ c = some 1 ∨ c = none) (k : Nat) :
    (fillCells vs).getD k 0 = 0 ∨ (fillCells vs).getD k 0 = 1 := by
  rcases hlt : (fillCells vs).get? k with _ | x
  · rw [List.getD_eq_get?, hlt]
    exact Or.inl rfl
  · rw [List.getD_eq_get?, hlt]
    have hx : x ∈ fillCells vs := List.get?_mem hlt
    rw [fillCells, List.mem_map] at hx
    obtain ⟨c, hc, rfl⟩ := hx
    rcases h c hc with rfl | rfl | rfl
    · exact Or.inl rfl
    · exact Or.inr rfl
    · exact Or.inl rfl

lemma clip01 (a b : ℚ) (ha : a = 0 ∨ a = 1) (hb : b = 0 ∨ b = 1) :
    ((if a - b = -1 then 0 else a - b) = 0 ∨
      (if a - b = -1 then 0 else a - b) = 1) ∧
    0 ≤ (if a - b = -1 then 0 else a - b) := by
  rcases ha with rfl | rfl <;> rcases hb with rfl | rfl <;> norm_num

/-- C2: on 0/1 ownership tables, every entry of the table returned by
`get_new_products` — current flag minus prior flag with `-1` replaced by
`0` — lies in `{0, 1}` and is never negative. -/
theorem C2_labels_are_01 (data pdata : List Row)
    (hd : ∀ r ∈ data, flags01 r) (hp : ∀ r ∈ pdata, flags01 r) :
    ∀ lr ∈ get_new_products data pdata, ∀ e ∈ lr,
      (e = 0 ∨ e = 1) ∧ 0 ≤ e := by
  intro lr hlr e he
  simp only [get_new_products, List.mem_map] at hlr
  obtain ⟨m, hm, rfl⟩ := hlr
  simp only [List.mem_map] at he
  obtain ⟨k, hk, rfl⟩ := he
  have hc := mergeLeft_cell_cases data pdata 24 hd hp m hm
  have h1 := fillCells_getD_01 m.vals hc k
  have h2 := fillCells_getD_01 m.vals hc (24 + k)
  exact clip01 _ _ h1 h2

theorem C2_witness :
    (∀ r ∈ [Row.mk 1 [some 1, some 0], Row.mk 2 [some 0, some 0]], flags01 r) ∧
    (∀ r ∈ [Row.mk 1 [some 1, some 1]], flags01 r) ∧
    (∀ lr ∈ get_new_products [Row.mk 1 [some 1, some 0], Row.mk 2 [some 0, some 0]]
        [Row.mk 1 [some 1, some 1]], ∀ e ∈ lr, (e = 0 ∨ e = 1) ∧ 0 ≤ e) :=
  ⟨by decide, by decide,
    C2_labels_are_01 [Row.mk 1 [some 1, some 0], Row.mk 2 [some 0, some 0]]
      [Row.mk 1 [some 1, some 1]] (by decide) (by decide)⟩

lemma argsort_sorted (xs : List ℚ) : List.Sorted (scoreLe xs) (argsort xs) :=
  List.sorted_insertionSort (scoreLe xs) (List.range xs.length)

lemma argsort_perm (xs : List ℚ) : (argsort xs).Perm (List.range xs.length) :=
  List.perm_insertionSort (scoreLe xs) (List.range xs.length)

lemma topK_pairwise (k : Nat) (xs : List ℚ) :
    List.Pairwise (fun a b => scoreLe xs b a) (topK k xs) :=
  List.Pairwise.sublist (List.take_sublist k _)
    (List.pairwise_reverse.mpr (argsort_sorted xs))

lemma topK_length (k : Nat) (xs : List ℚ) :
    (topK k xs).length = min k xs.length := by
  simp [topK, argsort, List.length_insertionSort]

lemma topK_nodup (k : Nat) (xs : List ℚ) : (topK k xs).Nodup :=
  List.Nodup.sublist (List.take_sublist k _)
    (List.nodup_reverse.mpr (((argsort_perm xs).nodup_iff).mpr
      (List.nodup_range xs.length)))

lemma topK_sorted_desc (k : Nat) (xs : List ℚ) (j : Nat)
    (hj : j + 1 < (topK k xs).length) :
    xs.getD ((topK k xs).getD (j + 1) 0) 0 ≤ xs.getD ((topK k xs).getD j 0) 0 := by
  have hp := topK_pairwise k xs
  rw [List.pairwise_iff_get] at hp
  have hj0 : j < (topK k xs).length := Nat.lt_of_succ_lt hj
  have hrel := hp ⟨j, hj0⟩ ⟨j + 1, hj⟩ (by simp [Fin.lt_def])
  have e1 : (topK k xs).getD (j + 1) 0 = (topK k xs).get ⟨j + 1, hj⟩ := by
    rw [List.getD_eq_get?, List.get?_eq_get hj]
    rfl
  have e0 : (topK k xs).getD j 0 = (topK k xs).get ⟨j, hj0⟩ := by
    rw [List.getD_eq_get?, List.get?_eq_get hj0]
    rfl
  rw [e1, e0]
  exact hrel

lemma topK_dominates (k : Nat) (xs : List ℚ) (i : Nat)
    (hi : i < xs.length) (hni : i ∉ topK k xs) :
    ∀ j ∈ topK k xs, xs.getD i 0 ≤ xs.getD j 0 := by
  intro j hj
  simp only [topK] at hni hj
  have hrev : List.Pairwise (fun a b => scoreLe xs b a) (argsort xs).reverse :=
    List.pairwise_reverse.mpr (argsort_sorted xs)
  have hmem : i ∈ (argsort xs).reverse := by
    rw [List.mem_reverse]
    exact ((argsort_perm xs).mem_iff).mpr (List.mem_range.mpr hi)
  have hsplit := List.take_append_drop k (argsort xs).reverse
  have hdrop : i ∈ (argsort xs).reverse.drop k := by
    rcases List.mem_append.mp (by rw [hsplit]; exact hmem) with h | h
    · exact absurd h hni
    · exact h
  have hpw : List.Pairwise (fun a b => scoreLe xs b a)
      ((argsort xs).reverse.take k ++ (argsort xs).reverse.drop k) := by
    rw [hsplit]
    exact hrev
  exact (List.pairwise_append.mp hpw).2.2 j hj i hdrop

/-- C1: the top-K slice over a row of predicted probabilities — the last
`K` entries of the ascending `argsort`, reversed — selects `min K n`
distinct indices, in descending score order (the `j`-th selected index
scores at least the `(j+1)`-th), and no unselected index scores strictly
above any selected one; `K` is 7 on the validation set, 5 on the test
set and 10 for the movie recommendations. -/
theorem C1_topK_highest_descending (xs : List ℚ) (k : Nat) :
    (topK k xs).length = min k xs.length ∧ (topK k xs).Nodup ∧
    (∀ j, j + 1 < (topK k xs).length →
      xs.getD ((topK k xs).getD (j + 1) 0) 0 ≤
        xs.getD ((topK k xs).getD j 0) 0) ∧
    (∀ i, i < xs.length → i ∉ topK k xs →
      ∀ j ∈ topK k xs, xs.getD i 0 ≤ xs.getD j 0) :=
  ⟨topK_length k xs, topK_nodup k xs,
    fun j hj => topK_sorted_desc k xs j hj,
    fun i hi hni => topK_dominates k xs i hi hni⟩

theorem C1_witness :
    (0 + 1 < (topK 2 [(1 : ℚ), 3, 2]).length ∧
      [(1 : ℚ), 3, 2].getD ((topK 2 [(1 : ℚ), 3, 2]).getD (0 + 1) 0) 0 ≤
        [(1 : ℚ), 3, 2].getD ((topK 2 [(1 : ℚ), 3, 2]).getD 0 0) 0) ∧
    (0 < ([(1 : ℚ), 3, 2]).length ∧ 0 ∉ topK 2 [(1 : ℚ), 3, 2] ∧
      ∀ j ∈ topK 2 [(1 : ℚ), 3, 2],
        [(1 : ℚ), 3, 2].getD 0 0 ≤ [(1 : ℚ), 3, 2].getD j 0) :=
  ⟨⟨by decide, (C1_topK_highest_descending [1, 3, 2] 2).2.2.1 0 (by decide)⟩,
    ⟨by decide, by decide,
      (C1_topK_highest_descending [1, 3, 2] 2).2.2.2 0 (by decide) (by decide)⟩⟩

/-- C4: the output frame pairs every test-set customer id with exactly
five product codes (the columns `p0..p4`), namely the entries of
`rec_products` at the top-5 indices of that customer's predicted
probabilities, so that no product outside the five scores strictly
higher than any recommended one. -/
theorem C4_output_five_codes (ids : List Nat) (probs : List (List ℚ))
    (hl : ids.length = probs.length)
    (hw : ∀ row ∈ probs, row.length = rec_products.length) :
    (outFrame ids probs).length = ids.length ∧
    ∀ i a, ids.get? i = some a → ∃ row codes,
      probs.get? i = some row ∧
      (outFrame ids probs).get? i = some (a, codes) ∧
      codes = (topK 5 row).map (fun j => rec_products.getD j "") ∧
      codes.length = 5 ∧
      ∀ m, m < row.length → m ∉ topK 5 row →
        ∀ j ∈ topK 5 row, row.getD m 0 ≤ row.getD j 0 := by
  constructor
  · rw [outFrame, List.length_zip, test_preds, List.length_map, hl, min_self]
  · intro i a ha
    have hi : i < ids.length := by
      rcases List.get?_eq_some.mp ha with ⟨h, _⟩
      exact h
    have hi2 : i < probs.length := by
      rw [← hl]
      exact hi
    have hrow : probs.get? i = some (probs.get ⟨i, hi2⟩) := List.get?_eq_get hi2
    set row := probs.get ⟨i, hi2⟩ with hrowdef
    have hrowmem : row ∈ probs := List.get_mem probs i hi2
    refine ⟨row, (topK 5 row).map (fun j => rec_products.getD j ""),
      hrow, ?_, rfl, ?_, ?_⟩
    · have htp : (test_preds probs).get? i =
          some ((topK 5 row).map (fun j => rec_products.getD j "")) := by
        rw [test_preds, List.get?_map, hrow]
        rfl
      rw [outFrame]
      simp only [List.get?_eq_getElem?] at ha htp ⊢
      rw [List.getElem?_zip_eq_some]
      exact ⟨ha, htp⟩
    · rw [List.length_map, topK_length, hw row hrowmem]
      decide
    · intro m hm hnm j hj
      exact topK_dominates 5 row m hm hnm j hj

theorem C4_witness :
    ([(10 : Nat)].length = [[(1 : ℚ), 2, 3, 4, 5, 6, 7, 8, 9, 10, 11, 12]].length) ∧
    (∀ row ∈ [[(1 : ℚ), 2, 3, 4, 5, 6, 7, 8, 9, 10, 11, 12]],
      row.length = rec_products.length) ∧
    ([(10 : Nat)].get? 0 = some 10) ∧
    (∃ row codes,
      [[(1 : ℚ), 2, 3, 4, 5, 6, 7, 8, 9, 10, 11, 12]].get? 0 = some row ∧
      (outFrame [10] [[(1 : ℚ), 2, 3, 4, 5, 6, 7, 8, 9, 10, 11, 12]]).get? 0 =
        some (10, codes) ∧
      codes = (topK 5 row).map (fun j => rec_products.getD j "") ∧
      codes.length = 5 ∧
      ∀ m, m < row.length → m ∉ topK 5 row →
        ∀ j ∈ topK 5 row, row.getD m 0 ≤ row.getD j 0) :=
  ⟨by decide, by decide, by decide,
    (C4_output_five_codes [10] [[(1 : ℚ), 2, 3, 4, 5, 6, 7, 8, 9, 10, 11, 12]]
      (by decide) (by decide)).2 0 10 (by decide)⟩

lemma flatMap_singleton_eq_map {α β : Type} (f : α → List β) (g : α → β)
    (l : List α) (h : ∀ x ∈ l, f x = [g x]) : l.flatMap f = l.map g := by
  induction l with
  | nil => rfl
  | cons x xs ih =>
    rw [List.flatMap_cons, List.map_cons, h x (List.mem_cons_self x xs),
      ih (fun y hy => h y (List.mem_cons_of_mem x hy)), List.singleton_append]

lemma filter_key_nil {pdata : List Row} {a : Nat}
    (h : a ∉ pdata.map Row.ncodpers) :
    pdata.filter (fun p => decide (p.ncodpers = a)) = [] := by
  rw [List.filter_eq_nil]
  intro p hp
  simp only [decide_eq_true_eq]
  intro heq
  exact h (heq ▸ List.mem_map_of_mem Row.ncodpers hp)

lemma filter_key_len (pdata : List Row) (a : Nat)
    (h : (pdata.map Row.ncodpers).Nodup) :
    (pdata.filter (fun p => decide (p.ncodpers = a))).length ≤ 1 := by
  induction pdata with
  | nil => simp
  | cons p ps ih =>
    rw [List.map_cons, List.nodup_cons] at h
    by_cases hpa : p.ncodpers = a
    · rw [List.filter_cons_of_pos (by simpa using hpa)]
      have hnil : ps.filter (fun q => decide (q.ncodpers = a)) = [] := by
        rw [List.filter_eq_nil]
        intro q hq
        simp only [decide_eq_true_eq]
        intro hqa
        exact h.1 (by
          rw [hpa, ← hqa]
          exact List.mem_map_of_mem Row.ncodpers hq)
      simp [hnil]
    · rw [List.filter_cons_of_neg (by simpa using hpa)]
      exact ih h.2

lemma mergeLeft_eq_map (left right : List Row) (w : Nat)
    (h : (right.map Row.ncodpers).Nodup) :
    mergeLeft left right w = left.map (singleMerge right w) := by
  rw [mergeLeft]
  apply flatMap_singleton_eq_map
  intro r hr
  rcases hms : right.filter (fun p => decide (p.ncodpers = r.ncodpers)) with _ | ⟨p, ps⟩
  · simp [hms, singleMerge]
  · have hlen := filter_key_len right r.ncodpers h
    rw [hms] at hlen
    have hps : ps = [] := by
      cases ps with
      | nil => rfl
      | cons q qs => simp at hlen
    subst hps
    simp [hms, singleMerge]

lemma singleMerge_ncodpers (right : List Row) (w : Nat) (r : Row) :
    (singleMerge right w r).ncodpers = r.ncodpers := by
  rw [singleMerge]
  split <;> rfl

lemma mergeLeft_map_key (left right : List Row) (w : Nat)
    (h : (right.map Row.ncodpers).Nodup) :
    (mergeLeft left right w).map Row.ncodpers = left.map Row.ncodpers := by
  rw [mergeLeft_eq_map left right w h, List.map_map]
  apply List.map_congr_left
  intro r hr
  exact singleMerge_ncodpers right w r

lemma fillna0_map_key (t : List Row) :
    (fillna0 t).map Row.ncodpers = t.map Row.ncodpers := by
  rw [fillna0, List.map_map]
  apply List.map_congr_left
  intro r hr
  rfl

lemma noMissing_fillna0 (t : List Row) : noMissing (fillna0 t) := by
  intro r hr c hc
  simp only [fillna0, List.mem_map] at hr
  obtain ⟨s, hs, rfl⟩ := hr
  simp only [List.mem_map] at hc
  obtain ⟨c0, hc0, rfl⟩ := hc
  simp

/-- C5: `get_temp_features` performs one left join per month and fills
the holes with zero after each join, so — for monthly tables keyed by a
unique `ncodpers` — the key column of the result is exactly the key
column of the input (every input row is kept, none duplicated), and the
result has no missing values whenever the input has none. -/
theorem C5_temp_features_keeps_rows_no_missing (input : List Row)
    (months : List (List Row)) (hin : noMissing input)
    (hnd : ∀ m ∈ months, (m.map Row.ncodpers).Nodup) :
    (get_temp_features input months).map Row.ncodpers = input.map Row.ncodpers ∧
    noMissing (get_temp_features input months) := by
  revert hnd
  revert input
  induction months with
  | nil =>
    intro input hin hnd
    exact ⟨rfl, hin⟩
  | cons m ms ih =>
    intro input hin hnd
    have hm : (m.map Row.ncodpers).Nodup := hnd m (List.mem_cons_self m ms)
    have hrec := ih (fillna0 (mergeLeft input m 24)) (noMissing_fillna0 _)
      (fun t ht => hnd t (List.mem_cons_of_mem m ht))
    refine ⟨?_, hrec.2⟩
    have hstep : get_temp_features input (m :: ms) =
        get_temp_features (fillna0 (mergeLeft input m 24)) ms := rfl
    rw [hstep, hrec.1, fillna0_map_key, mergeLeft_map_key input m 24 hm]

theorem C5_witness :
    noMissing [Row.mk 1 [some 5], Row.mk 2 [some 6]] ∧
    (∀ m ∈ [[Row.mk 1 [some 7, some 0]]],
      (m.map Row.ncodpers).Nodup) ∧
    ((get_temp_features [Row.mk 1 [some 5], Row.mk 2 [some 6]]
        [[Row.mk 1 [some 7, some 0]]]).map Row.ncodpers =
      [Row.mk 1 [some 5], Row.mk 2 [some 6]].map Row.ncodpers ∧
    noMissing (get_temp_features [Row.mk 1 [some 5], Row.mk 2 [some 6]]
        [[Row.mk 1 [some 7, some 0]]])) :=
  ⟨by decide, by decide,
    C5_temp_features_keeps_rows_no_missing
      [Row.mk 1 [some 5], Row.mk 2 [some 6]]
      [[Row.mk 1 [some 7, some 0]]] (by decide) (by decide)⟩

lemma getD_replicate_zero (n i : Nat) :
    (List.replicate n (0 : ℚ)).getD i 0 = 0 := by
  rw [List.getD_eq_get?]
  rcases h : (List.replicate n (0 : ℚ)).get? i with _ | x
  · rfl
  · have hx := List.eq_of_mem_replicate (List.get?_mem h)
    simp [hx]

lemma clip_sub_zero (a : ℚ) (ha : a = 0 ∨ a = 1) :
    (if a - 0 = -1 then (0 : ℚ) else a - 0) = a := by
  rcases ha with rfl | rfl <;> norm_num

lemma recPositions_lt : ∀ k ∈ recPositions, k < 24 := by decide

/-- C9: `get_new_products` labels every current-month row — under
per-month unique customer keys there is exactly one label row per row of
`data` — and a customer absent from the prior month is zero-filled by
the left join, so each of their labels equals their current flag: every
currently owned product counts as newly added.  The computed intersection
of the two key columns plays no part in this: the embedding reproduces
every cell without it. -/
theorem C9_label_rows_cover_current_month (data pdata : List Row)
    (hnd : (pdata.map Row.ncodpers).Nodup) :
    (get_new_products data pdata).length = data.length ∧
    ∀ i r, data.get? i = some r →
      r.ncodpers ∉ pdata.map Row.ncodpers →
      r.vals.length = 24 →
      (∀ c ∈ r.vals, c = some 0 ∨ c = some 1) →
      (get_new_products data pdata).get? i =
        some (recPositions.map (fun k => (fillCells r.vals).getD k 0)) := by
  rw [get_new_products, mergeLeft_eq_map data pdata 24 hnd]
  constructor
  · rw [List.length_map, List.length_map]
  · intro i r hi habs hw hflags
    rw [List.get?_map, List.get?_map, hi]
    have hfil := filter_key_nil habs
    have hsm : singleMerge pdata 24 r =
        ⟨r.ncodpers, r.vals ++ List.replicate 24 none⟩ := by
      rw [singleMerge, hfil]
    rw [Option.map_some', Option.map_some', hsm]
    have hcells : fillCells (r.vals ++ List.replicate 24 none) =
        fillCells r.vals ++ List.replicate 24 (0 : ℚ) := by
      rw [fillCells, List.map_append, List.map_replicate]
      rfl
    simp only [hcells]
    congr 1
    apply List.map_congr_left
    intro k hk
    have hklt : k < 24 := recPositions_lt k hk
    have hcur : (fillCells r.vals ++ List.replicate 24 (0 : ℚ)).getD k 0 =
        (fillCells r.vals).getD k 0 := by
      apply List.getD_append
      rw [fillCells, List.length_map, hw]
      exact hklt
    have hlen24 : (fillCells r.vals).length = 24 := by
      rw [fillCells, List.length_map, hw]
    have hprior : (fillCells r.vals ++ List.replicate 24 (0 : ℚ)).getD (24 + k) 0 = 0 := by
      rw [List.getD_append_right]
      · exact getD_replicate_zero 24 (24 + k - (fillCells r.vals).length)
      · rw [hlen24]
        exact Nat.le_add_right 24 k
    rw [hcur, hprior]
    apply clip_sub_zero
    rcases hv : (fillCells r.vals).get? k with _ | x
    · rw [List.getD_eq_get?, hv]
      exact Or.inl rfl
    · rw [List.getD_eq_get?, hv]
      have hx : x ∈ fillCells r.vals := List.get?_mem hv
      rw [fillCells, List.mem_map] at hx
      obtain ⟨c, hc, rfl⟩ := hx
      rcases hflags c hc with rfl | rfl
      · exact Or.inl rfl
      · exact Or.inr rfl

theorem C9_witness :
    (([Row.mk 7 (List.replicate 24 (some 0))].map Row.ncodpers).Nodup) ∧
    ([Row.mk 1 (List.replicate 24 (some 1))].get? 0 =
      some (Row.mk 1 (List.replicate 24 (some 1)))) ∧
    ((1 : Nat) ∉ [Row.mk 7 (List.replicate 24 (some 0))].map Row.ncodpers) ∧
    ((Row.mk 1 (List.replicate 24 (some 1))).vals.length = 24) ∧
    (∀ c ∈ (Row.mk 1 (List.replicate 24 (some 1))).vals,
      c = some 0 ∨ c = some 1) ∧
    ((get_new_products [Row.mk 1 (List.replicate 24 (some 1))]
        [Row.mk 7 (List.replicate 24 (some 0))]).get? 0 =
      some (recPositions.map (fun k =>
        (fillCells (Row.mk 1 (List.replicate 24 (some 1))).vals).getD k 0))) :=
  ⟨by decide, by decide, by decide, by decide, by decide,
    (C9_label_rows_cover_current_month
      [Row.mk 1 (List.replicate 24 (some 1))]
      [Row.mk 7 (List.replicate 24 (some 0))] (by decide)).2 0
      (Row.mk 1 (List.replicate 24 (some 1))) (by decide) (by decide)
      (by decide) (by decide)⟩

lemma mem_uniqueFrom {α : Type} [DecidableEq α] (l : List α) :
    ∀ (acc : List α) (a : α), a ∈ uniqueFrom acc l ↔ a ∈ acc ∨ a ∈ l := by
  induction l with
  | nil =>
    intro acc a
    rw [uniqueFrom]
    simp
  | cons x xs ih =>
    intro acc a
    rw [uniqueFrom]
    by_cases hx : x ∈ acc
    · rw [if_pos hx, ih]
      simp only [List.mem_cons]
      constructor
      · rintro (h | h)
        · exact Or.inl h
        · exact Or.inr (Or.inr h)
      · rintro (h | rfl | h)
        · exact Or.inl h
        · exact Or.inl hx
        · exact Or.inr h
    · rw [if_neg hx, ih]
      simp only [List.mem_append, List.mem_singleton, List.mem_cons]
      tauto

lemma nodup_uniqueFrom {α : Type} [DecidableEq α] (l : List α) :
    ∀ acc : List α, acc.Nodup → (uniqueFrom acc l).Nodup := by
  induction l with
  | nil =>
    intro acc h
    rw [uniqueFrom]
    exact h
  | cons x xs ih =>
    intro acc h
    rw [uniqueFrom]
    by_cases hx : x ∈ acc
    · rw [if_pos hx]
      exact ih acc h
    · rw [if_neg hx]
      apply ih
      rw [List.nodup_append]
      refine ⟨h, List.nodup_singleton x, ?_⟩
      intro a ha hax
      rcases List.mem_singleton.mp hax with rfl
      exact hx ha

lemma mem_uniqueList {α : Type} [DecidableEq α] (l : List α) (a : α) :
    a ∈ uniqueList l ↔ a ∈ l := by
  rw [uniqueList, mem_uniqueFrom]
  simp

lemma nodup_uniqueList {α : Type} [DecidableEq α] (l : List α) :
    (uniqueList l).Nodup :=
  nodup_uniqueFrom l [] List.nodup_nil

/-- C8: the id remapping of the MovieLens notebook is a bijection from
the distinct raw ids (in first-occurrence order) onto `{0, ..., n-1}`,
and decoding inverts encoding: distinct ids are pairwise different,
every distinct raw id encodes below `n` and decodes back to itself, and
every dense index below `n` is recovered by encoding its decoded id. -/
theorem C8_encoding_decoding_inverse (l : List Nat) :
    (uniqueList l).Nodup ∧
    (∀ x, x ∈ uniqueList l ↔ x ∈ l) ∧
    (∀ x ∈ uniqueList l, encodeId l x < (uniqueList l).length ∧
      decodeId l (encodeId l x) = some x) ∧
    (∀ i, i < (uniqueList l).length → ∀ x, decodeId l i = some x →
      encodeId l x = i) := by
  refine ⟨nodup_uniqueList l, fun x => mem_uniqueList l x, ?_, ?_⟩
  · intro x hx
    exact ⟨List.indexOf_lt_length.mpr hx, List.indexOf_get? hx⟩
  · intro i hi x hx
    rcases List.get?_eq_some.mp hx with ⟨h, rfl⟩
    exact List.get_indexOf (nodup_uniqueList l) ⟨i, h⟩

theorem C8_witness :
    ((2 : Nat) ∈ uniqueList [3, 1, 3, 2]) ∧
    (encodeId [3, 1, 3, 2] 2 < (uniqueList [3, 1, 3, 2]).length ∧
      decodeId [3, 1, 3, 2] (encodeId [3, 1, 3, 2] 2) = some 2) ∧
    ((1 : Nat) < (uniqueList [3, 1, 3, 2]).length) ∧
    (decodeId [3, 1, 3, 2] 1 = some 1) ∧
    (encodeId [3, 1, 3, 2] 1 = 1) :=
  ⟨by decide,
    (C8_encoding_decoding_inverse [3, 1, 3, 2]).2.2.1 2 (by decide),
    by decide, by decide,
    (C8_encoding_decoding_inverse [3, 1, 3, 2]).2.2.2 1 (by decide) 1 (by decide)⟩

lemma filter_seg_of_map (t : String) (f : SegRow → SegRow)
    (hseg : ∀ r, (f r).segmento = r.segmento)
    (hfix : ∀ r, r.segmento = t → f r = r) (rows : List SegRow) :
    (rows.map f).filter (fun r => decide (r.segmento = t)) =
      rows.filter (fun r => decide (r.segmento = t)) := by
  induction rows with
  | nil => rfl
  | cons r rs ih =>
    rw [List.map_cons, List.filter_cons, List.filter_cons]
    by_cases hrt : r.segmento = t
    · rw [hfix r hrt, ih]
    · have hcond : ¬ (decide (r.segmento = t) = true) := by simp [hrt]
      rw [hseg r, if_neg hcond, if_neg hcond, ih]

lemma observedRenta_processSeg (rows : List SegRow) (s t : String)
    (hst : t ≠ s) :
    observedRenta (processSeg rows s) t = observedRenta rows t := by
  simp only [processSeg, observedRenta]
  rw [filter_seg_of_map t _ ?hsegm ?hfixv rows]
  case hsegm =>
    intro r
    by_cases h : r.renta = none ∧ r.segmento = s
    · rw [if_pos h]
    · rw [if_neg h]
  case hfixv =>
    intro r hrt
    rw [if_neg]
    intro h
    exact hst (hrt ▸ h.2)

lemma foldl_processSeg_eq_map (segs : List String) :
    ∀ rows : List SegRow, segs.Nodup →
    segs.foldl processSeg rows = rows.map (fun r =>
      if r.renta = none ∧ r.segmento ∈ segs then
        SegRow.mk r.segmento (median (observedRenta rows r.segmento))
      else r) := by
  induction segs with
  | nil =>
    intro rows hnd
    have hid : ∀ r ∈ rows,
        (if r.renta = none ∧ r.segmento ∈ ([] : List String) then
          SegRow.mk r.segmento (median (observedRenta rows r.segmento))
        else r) = id r := by
      intro r hr
      rw [if_neg]
      · rfl
      · intro h
        exact (List.not_mem_nil r.segmento) h.2
    rw [List.foldl_nil, List.map_congr_left hid, List.map_id]
  | cons s ss ih =>
    intro rows hnd
    have hs_not : s ∉ ss := (List.nodup_cons.mp hnd).1
    have hnd2 : ss.Nodup := (List.nodup_cons.mp hnd).2
    rw [List.foldl_cons, ih (processSeg rows s) hnd2]
    have hps : processSeg rows s = rows.map (fun r =>
        if r.renta = none ∧ r.segmento = s then
          SegRow.mk r.segmento (median (observedRenta rows s)) else r) := rfl
    conv_lhs => rw [hps]
    rw [List.map_map]
    apply List.map_congr_left
    intro r hr
    simp only [Function.comp_apply]
    by_cases hnone : r.renta = none
    · by_cases hseg : r.segmento = s
      · simp [hnone, hseg, hs_not]
      · by_cases hmem : r.segmento ∈ ss
        · have hobs : observedRenta (rows.map (fun r =>
              if r.renta = none ∧ r.segmento = s then
                SegRow.mk r.segmento (median (observedRenta rows s)) else r))
              r.segmento = observedRenta rows r.segmento := by
            rw [← hps]
            exact observedRenta_processSeg rows s r.segmento hseg
          simp [hnone, hseg, hmem, hobs]
        · simp [hnone, hseg, hmem]
    · simp [hnone]

lemma imputeRenta_pointwise (rows : List SegRow) :
    imputeRenta rows = rows.map (fun r =>
      if r.renta = none then
        SegRow.mk r.segmento (median (observedRenta rows r.segmento))
      else r) := by
  rw [imputeRenta,
    foldl_processSeg_eq_map (uniqueList (rows.map SegRow.segmento)) rows
      (nodup_uniqueList _)]
  apply List.map_congr_left
  intro r hr
  have hmem : r.segmento ∈ uniqueList (rows.map SegRow.segmento) :=
    (mem_uniqueList _ _).mpr (List.mem_map_of_mem SegRow.segmento hr)
  by_cases hnone : r.renta = none
  · rw [if_pos ⟨hnone, hmem⟩, if_pos hnone]
  · rw [if_neg (fun h => hnone h.1), if_neg hnone]

/-- C3: in the `renta` imputation loop of `get_features`, every record
whose `renta` is missing is assigned the median of the non-missing
`renta` values of the records of its own segment. -/
theorem C3_missing_renta_gets_segment_median (rows : List SegRow) (i : Nat)
    (r : SegRow) (m : ℚ) (hi : rows.get? i = some r) (hmiss : r.renta = none)
    (hmed : median (observedRenta rows r.segmento) = some m) :
    (imputeRenta rows).get? i = some (SegRow.mk r.segmento (some m)) := by
  rw [imputeRenta_pointwise, List.get?_map, hi, Option.map_some']
  rw [if_pos hmiss, hmed]

theorem C3_witness :
    ([SegRow.mk "02" none, SegRow.mk "02" (some 10),
        SegRow.mk "01" (some 4)].get? 0 = some (SegRow.mk "02" none)) ∧
    ((SegRow.mk "02" (none : Option ℚ)).renta = none) ∧
    (median (observedRenta [SegRow.mk "02" none, SegRow.mk "02" (some 10),
        SegRow.mk "01" (some 4)] (SegRow.mk "02" (none : Option ℚ)).segmento) =
      some 10) ∧
    ((imputeRenta [SegRow.mk "02" none, SegRow.mk "02" (some 10),
        SegRow.mk "01" (some 4)]).get? 0 =
      some (SegRow.mk "02" (some 10))) :=
  ⟨by decide, by decide, by decide,
    C3_missing_renta_gets_segment_median
      [SegRow.mk "02" none, SegRow.mk "02" (some 10), SegRow.mk "01" (some 4)]
      0 (SegRow.mk "02" none) 10 (by decide) (by decide) (by decide)⟩

lemma parseIntNA_ok_of_wf (s : String) (h : wfIntCell s) :
    ∃ y, parseIntNA s = Except.ok y := by
  rcases h with h | h
  · exact ⟨none, by simp [parseIntNA, h]⟩
  · rcases Option.isSome_iff_exists.mp h with ⟨n, hn⟩
    by_cases hna : pyStrip s = "NA"
    · exact ⟨none, by simp [parseIntNA, hna]⟩
    · exact ⟨some n, by simp [parseIntNA, hna, hn]⟩

lemma parseIntNA_NA (s : String) (h : pyStrip s = "NA") :
    parseIntNA s = Except.ok none := by
  simp [parseIntNA, h]

lemma mapExcept_ok {α β : Type} (f : α → Except String β) :
    ∀ l : List α, (∀ x ∈ l, ∃ y, f x = Except.ok y) →
    ∃ out, mapExcept f l = Except.ok out ∧ out.length = l.length ∧
      ∀ i x, l.get? i = some x →
        ∃ y, out.get? i = some y ∧ f x = Except.ok y := by
  intro l
  induction l with
  | nil =>
    intro h
    refine ⟨[], rfl, rfl, ?_⟩
    intro i x hx
    simp at hx
  | cons a as ih =>
    intro h
    obtain ⟨y, hy⟩ := h a (List.mem_cons_self a as)
    obtain ⟨out, hout, hlen, hcorr⟩ :=
      ih (fun x hx => h x (List.mem_cons_of_mem a hx))
    refine ⟨y :: out, ?_, by simp [hlen], ?_⟩
    · simp only [mapExcept, hy, hout]
      rfl
    · intro i x hx
      cases i with
      | zero =>
        rw [List.get?_cons_zero] at hx
        rcases Option.some.inj hx with rfl
        exact ⟨y, rfl, hy⟩
      | succ n =>
        rw [List.get?_cons_succ] at hx
        obtain ⟨z, hz1, hz2⟩ := hcorr n x hx
        exact ⟨z, by rw [List.get?_cons_succ]; exact hz1, hz2⟩

/-- C6 counterexample: `get_features` does raise on malformed numeric
input — an `antiguedad` cell that is neither numeric nor `'NA'` makes
Python's `int` (and therefore the whole function) raise; only `renta`
parsing is coerced silently. -/
theorem C6_counterexample_get_features_raises :
    get_features [RawRow.mk "abc" "30" "100" none none] =
      Except.error "abc" := by rfl

/-- C6 (amended): `get_features` never raises provided every
`antiguedad` and `age` cell is numeric or the `'NA'` marker (a cell that
is neither makes `int` raise); under that proviso, a `renta` value that
fails numeric parsing is coerced to missing and imputed with the median
of its segment, a missing `cod_prov` is filled with the sentinel 99, and
a missing (`'NA'`) `age` or `antiguedad` is filled with the median of
the observed values of its column. -/
theorem C6_get_features_imputes_instead_of_raising (rows : List RawRow)
    (hwf : ∀ r ∈ rows, wfIntCell r.antiguedad ∧ wfIntCell r.age) :
    ∃ out, get_features rows = Except.ok out ∧ out.length = rows.length ∧
      ∀ i r fr, rows.get? i = some r → out.get? i = some fr →
        (r.cod_prov = none → fr.cod_prov = 99) ∧
        (toNumericCoerce r.renta = none →
          fr.renta = median (observedRenta (segRowsOf rows) fr.segmento)) ∧
        (∀ c, antigCol rows = Except.ok c → pyStrip r.antiguedad = "NA" →
          fr.antiguedad = colMedian (antigFix c)) ∧
        (∀ c, ageCol rows = Except.ok c → pyStrip r.age = "NA" →
          fr.age = colMedian c) := by
  obtain ⟨a, ha0, halen, hacorr⟩ :=
    mapExcept_ok (fun r => parseIntNA r.antiguedad) rows
      (fun r hr => parseIntNA_ok_of_wf r.antiguedad (hwf r hr).1)
  obtain ⟨g, hg0, hglen, hgcorr⟩ :=
    mapExcept_ok (fun r => parseIntNA r.age) rows
      (fun r hr => parseIntNA_ok_of_wf r.age (hwf r hr).2)
  have ha2 : antigCol rows = Except.ok a := ha0
  have hg2 : ageCol rows = Except.ok g := hg0
  refine ⟨buildFeatures rows a g, ?_, ?_, ?_⟩
  · rw [get_features, ha2, hg2]
    rfl
  · simp [buildFeatures]
  · intro i r fr hi hfr
    have hilt : i < rows.length := by
      rcases List.get?_eq_some.mp hi with ⟨h, _⟩
      exact h
    simp only [buildFeatures] at hfr
    rw [List.get?_map, List.get?_range hilt, Option.map_some'] at hfr
    have hfr2 : fr = _ := (Option.some.inj hfr).symm
    subst hfr2
    have hsegi : (segCol rows).get? i =
        some (strTake (r.segmento.getD "02 - PARTICULARES") 2) := by
      rw [segCol, List.get?_map, hi]
      rfl
    refine ⟨?_, ?_, ?_, ?_⟩
    · intro hcp
      have hrd : rows.getD i (RawRow.mk "" "" "" none none) = r := by
        rw [List.getD_eq_get?, hi]
        rfl
      show ((rows.getD i (RawRow.mk "" "" "" none none)).cod_prov).getD 99 = 99
      rw [hrd, hcp]
      rfl
    · intro hrn
      have hrenti : (rentaCol rows).get? i = some (toNumericCoerce r.renta) := by
        rw [rentaCol, List.get?_map, hi]
        rfl
      have hz : (segRowsOf rows).get? i =
          some (SegRow.mk (strTake (r.segmento.getD "02 - PARTICULARES") 2)
            (toNumericCoerce r.renta)) := by
        rw [segRowsOf, List.get?_map]
        have hzz : ((segCol rows).zip (rentaCol rows)).get? i =
            some (strTake (r.segmento.getD "02 - PARTICULARES") 2,
              toNumericCoerce r.renta) := by
          simp only [List.get?_eq_getElem?] at hsegi hrenti ⊢
          rw [List.getElem?_zip_eq_some]
          exact ⟨hsegi, hrenti⟩
        rw [hzz]
        rfl
      have himp : (imputeRenta (segRowsOf rows)).get? i =
          some (SegRow.mk (strTake (r.segmento.getD "02 - PARTICULARES") 2)
            (median (observedRenta (segRowsOf rows)
              (strTake (r.segmento.getD "02 - PARTICULARES") 2)))) := by
        rw [imputeRenta_pointwise, List.get?_map, hz, Option.map_some']
        rw [if_pos hrn]
      have hsegD : (segCol rows).getD i "" =
          strTake (r.segmento.getD "02 - PARTICULARES") 2 := by
        rw [List.getD_eq_get?, hsegi]
        rfl
      show ((imputeRenta (segRowsOf rows)).getD i (SegRow.mk "" none)).renta =
        median (observedRenta (segRowsOf rows) ((segCol rows).getD i ""))
      rw [List.getD_eq_get?, himp, hsegD]
      rfl
    · intro c hc hNA
      have hceq : c = a := by
        rw [ha2] at hc
        exact (Except.ok.inj hc).symm
      subst hceq
      obtain ⟨y, hyi, hyp⟩ := hacorr i r hi
      have hynone : y = none := by
        rw [parseIntNA_NA r.antiguedad hNA] at hyp
        exact (Except.ok.inj hyp).symm
      subst hynone
      have hfix : (antigFix c).get? i = some none := by
        simp only [antigFix]
        rw [List.get?_map, hyi]
        rfl
      have hfill : (fillnaMedian (antigFix c)).get? i =
          some (colMedian (antigFix c)) := by
        simp only [fillnaMedian]
        rw [List.get?_map, hfix]
        rfl
      show (fillnaMedian (antigFix c)).getD i none = colMedian (antigFix c)
      rw [List.getD_eq_get?, hfill]
      rfl
    · intro c hc hNA
      have hceq : c = g := by
        rw [hg2] at hc
        exact (Except.ok.inj hc).symm
      subst hceq
      obtain ⟨y, hyi, hyp⟩ := hgcorr i r hi
      have hynone : y = none := by
        rw [parseIntNA_NA r.age hNA] at hyp
        exact (Except.ok.inj hyp).symm
      subst hynone
      have hfill : (fillnaMedian c).get? i = some (colMedian c) := by
        simp only [fillnaMedian]
        rw [List.get?_map, hyi]
        rfl
      show (fillnaMedian c).getD i none = colMedian c
      rw [List.getD_eq_get?, hfill]
      rfl

theorem C6_witness :
    (∀ r ∈ [RawRow.mk "  NA " "25" "xyz" none none,
        RawRow.mk "7" "NA" "4" (some 3) (some "01 - TOP")],
      wfIntCell r.antiguedad ∧ wfIntCell r.age) ∧
    (∃ out, get_features [RawRow.mk "  NA " "25" "xyz" none none,
        RawRow.mk "7" "NA" "4" (some 3) (some "01 - TOP")] = Except.ok out ∧
      out.length = [RawRow.mk "  NA " "25" "xyz" none none,
        RawRow.mk "7" "NA" "4" (some 3) (some "01 - TOP")].length ∧
      ∀ i r fr, [RawRow.mk "  NA " "25" "xyz" none none,
          RawRow.mk "7" "NA" "4" (some 3) (some "01 - TOP")].get? i = some r →
        out.get? i = some fr →
        (r.cod_prov = none → fr.cod_prov = 99) ∧
        (toNumericCoerce r.renta = none →
          fr.renta = median (observedRenta
            (segRowsOf [RawRow.mk "  NA " "25" "xyz" none none,
              RawRow.mk "7" "NA" "4" (some 3) (some "01 - TOP")]) fr.segmento)) ∧
        (∀ c, antigCol [RawRow.mk "  NA " "25" "xyz" none none,
            RawRow.mk "7" "NA" "4" (some 3) (some "01 - TOP")] = Except.ok c →
          pyStrip r.antiguedad = "NA" → fr.antiguedad = colMedian (antigFix c)) ∧
        (∀ c, ageCol [RawRow.mk "  NA " "25" "xyz" none none,
            RawRow.mk "7" "NA" "4" (some 3) (some "01 - TOP")] = Except.ok c →
          pyStrip r.age = "NA" → fr.age = colMedian c)) :=
  ⟨by decide,
    C6_get_features_imputes_instead_of_raising
      [RawRow.mk "  NA " "25" "xyz" none none,
        RawRow.mk "7" "NA" "4" (some 3) (some "01 - TOP")] (by decide)⟩
